import Mathlib

/-!
A verification development for the draco repository's core:
a shallow embedding of the block-state registry and property hashing
(`src/draco/state/state.go`) and of the chunk / sub-chunk / paletted-storage
encoders (the `chunk` package file), together with theorems settling the
specification's claims about them.

Go strings are immutable byte sequences compared byte-wise; they are
modelled as lists of byte values (`List Nat`).  Go panics are modelled as
`Except.error`; machine integer conversions are explicit `% 2^w`.
-/

namespace Draco

deriving instance DecidableEq for Except

/-- A Go string: an immutable sequence of bytes, compared byte-wise.
Lexicographic order on `List Nat` coincides with Go's `<` on strings. -/
abbrev GoString := List Nat

/-- Byte string of an ASCII string literal (for ASCII text the UTF-8 bytes
coincide with the code points).  Convenience for writing concrete inputs. -/
def gs (s : String) : GoString := s.data.map Char.toNat

/-- A dynamically typed property value, as stored in the Go map
`map[string]interface` of `blockState.Properties`.  The property types that
`hashProperties` accepts are `bool`, `uint8`, `int32` and `string`;
`other` stands for a value of any other dynamic type (including the nil
interface produced by a missing map key). -/
inductive Value where
  | bool (b : Bool)
  | uint8 (v : Nat)
  | int32 (v : Int)
  | string (s : GoString)
  | other
deriving DecidableEq

/-- The failure modes of the state package.  The Go code reports both by
`panic`; a panic is modelled as an `Except.error` carrying this type. -/
inductive DracoError where
  | invalidPropertyType
  | duplicateState
deriving DecidableEq

/-- The little-endian byte reinterpretation of an `int32`, as performed by
the unsafe pointer cast `*(*[4]byte)(unsafe.Pointer(v))` in
`hashProperties` on the little-endian targets the program supports:
the four bytes of the value's two's-complement bit pattern, least
significant first. -/
def int32LE (v : Int) : List Nat :=
  let u := (v % 4294967296).toNat
  [u % 256, (u >>> 8) % 256, (u >>> 16) % 256, (u >>> 24) % 256]

/-- The byte encoding of one property value appended by the `switch` in
`hashProperties`: byte 0/1 for `bool`, the raw byte for `uint8`, the
little-endian bit pattern for `int32`, the raw bytes for `string`.
`none` models the `default:` branch, which panics. -/
def valueBytes : Value → Option (List Nat)
  | .bool b => some [if b then 1 else 0]
  | .uint8 v => some [v % 256]
  | .int32 v => some (int32LE v)
  | .string s => some s
  | .other => none

/-- Lookup in a property bag, modelling Go's `properties[k]` (map keys are
unique; an association list with distinct keys represents the map). -/
def lookupVal : List (GoString × Value) → GoString → Option Value
  | [], _ => none
  | (k, v) :: rest, k' => if k = k' then some v else lookupVal rest k'

/-- The accumulation loop of `hashProperties`: walk the sorted key list and
append each key's value encoding to the digest.  A missing key (impossible
for a genuine map) yields the nil interface, hitting the panicking
`default:` branch, hence the error. -/
def hashLoop (props : List (GoString × Value)) : List GoString → Except DracoError GoString
  | [] => .ok []
  | k :: ks =>
    match lookupVal props k with
    | some v =>
      match valueBytes v with
      | some bs =>
        match hashLoop props ks with
        | .ok rest => .ok (bs ++ rest)
        | .error err => .error err
      | none => .error .invalidPropertyType
    | none => .error .invalidPropertyType

/-- The key collection and `sort.Slice` of `hashProperties`: the map's keys
sorted lexicographically (byte-wise `<`). -/
def sortKeys (props : List (GoString × Value)) : List GoString :=
  List.insertionSort (· ≤ ·) (props.map Prod.fst)

/-- The function `hashProperties` of `state.go`: sort the keys, then append each value's
byte encoding in sorted key order.  A nil or empty map yields the empty
string; an invalid property type panics (modelled as the error). -/
def hashProperties (props : List (GoString × Value)) : Except DracoError GoString :=
  hashLoop props (sortKeys props)

/-- The struct `blockState` of `state.go`: a name, a property bag and a version. -/
structure blockState where
  Name : GoString
  Properties : List (GoString × Value)
  Version : Int
deriving DecidableEq

/-- The struct `stateHash` of `state.go`: the registry map key, a name together with
the encoded properties digest. -/
structure stateHash where
  name : GoString
  properties : GoString
deriving DecidableEq

/-- The package-level mutable state of the `state` package that
`registerBlockState` touches: the `blocks` slice (here the underlying
`blockState` of each registered `unknownBlock`), the `stateRuntimeIDs`
map (as an association list), `airRID`, and the parallel `nbtBlocks` and
`randomTickBlocks` slices. -/
structure Registry where
  blocks : List blockState
  stateRuntimeIDs : List (stateHash × Nat)
  airRID : Nat
  nbtBlocks : List Bool
  randomTickBlocks : List Bool
deriving DecidableEq

/-- The zero state of the package before any registration. -/
def Registry.empty : Registry := ⟨[], [], 0, [], []⟩

/-- Lookup in the `stateRuntimeIDs` map. -/
def lookupHash : List (stateHash × Nat) → stateHash → Option Nat
  | [], _ => none
  | (h, n) :: rest, h' => if h = h' then some n else lookupHash rest h'

/-- The function `registerBlockState` of `state.go`: hash the properties, panic
(modelled as an error) if the state hash is already registered, otherwise
assign the next runtime ID `len(blocks)`, record the hash, append the
block, and grow the parallel slices. -/
def registerBlockState (reg : Registry) (s : blockState) : Except DracoError Registry := do
  let d ← hashProperties s.Properties
  let h : stateHash := ⟨s.Name, d⟩
  if (lookupHash reg.stateRuntimeIDs h).isSome then
    .error .duplicateState
  else
    let rid := reg.blocks.length
    .ok { blocks := reg.blocks ++ [s]
          stateRuntimeIDs := (h, rid) :: reg.stateRuntimeIDs
          airRID := if s.Name = gs ("minecraft:air") then rid else reg.airRID
          nbtBlocks := reg.nbtBlocks ++ [false]
          randomTickBlocks := reg.randomTickBlocks ++ [false] }

/-- The registration loop of `init` in `state.go`: register each decoded
block state in stream order; the first panic aborts the build. -/
def registerAll (reg : Registry) : List blockState → Except DracoError Registry
  | [] => .ok reg
  | s :: rest => do
    let reg1 ← registerBlockState reg s
    registerAll reg1 rest

/-- The function `StateToRuntimeID` of `state.go`: hash the properties and look the
resulting state hash up in `stateRuntimeIDs`; a missing entry yields the
zero value and `false`. -/
def StateToRuntimeID (reg : Registry) (name : GoString)
    (properties : List (GoString × Value)) : Except DracoError (Nat × Bool) := do
  let d ← hashProperties properties
  match lookupHash reg.stateRuntimeIDs ⟨name, d⟩ with
  | some rid => .ok (rid, true)
  | none => .ok (0, false)

/-- The state hash a record would register under (its digest defaulted to
the empty string when hashing fails); used only to state theorems. -/
def theHash (s : blockState) : stateHash :=
  ⟨s.Name, match hashProperties s.Properties with
           | .ok d => d
           | .error _ => []⟩

/-! ## The chunk package: sub-chunk and paletted-storage encoding -/

/-- The constant `SubChunkVersion` of the chunk package: the version byte written at the
head of every serialised sub chunk. -/
def SubChunkVersion : Nat := 9

/-- The constant `CurrentBlockVersion` of the chunk package. -/
def CurrentBlockVersion : Int := 17825806

/-- Modelled from the spec: the palette-kind selector (the
`BlockPaletteEncoding` / `BiomePaletteEncoding` values passed to
`encodePalettedStorage`); their definitions are not under `src/`. -/
inductive paletteEncoding where
  | BlockPaletteEncoding
  | BiomePaletteEncoding
deriving DecidableEq

/-- Modelled from the spec: the two encodings (network vs disk); the
`Encoding` interface definition is not under `src/`. -/
inductive encodingTag where
  | network
  | disk
deriving DecidableEq

/-- Modelled from the spec: an `Encoding` selects network or disk and
supplies the palette sub-encoder `encodePalette`, whose byte output is
encoding- and palette-kind-specific and is carried here as an
uninterpreted byte-producing function of the palette. -/
structure Encoding where
  tag : encodingTag
  encodePalette : List Nat → paletteEncoding → List Nat

/-- Modelled from the spec: `e.network()` is the flag ORed into the header
byte, 1 for the network encoding and 0 for disk. -/
def Encoding.network (e : Encoding) : Nat :=
  match e.tag with
  | .network => 1
  | .disk => 0

/-- Modelled from the spec: the `PalettedStorage` struct is not under
`src/`; per the spec's data model and its use in `encodePalettedStorage`,
it holds a bit width, the packed index words (32-bit, written 4 bytes
each) and the palette (a list of runtime or biome IDs). -/
structure PalettedStorage where
  bitsPerIndex : Nat
  indices : List Nat
  palette : List Nat
deriving DecidableEq

/-- Concatenation of the byte lists produced per element (Go's sequential
writes of per-element encodings into one buffer). -/
def flatMapL {α β : Type} (f : α → List β) : List α → List β
  | [] => []
  | a :: l => f a ++ flatMapL f l

/-- The four little-endian bytes `byte(v), byte(v>>8), byte(v>>16),
byte(v>>24)` of one packed uint32 word. -/
def word32LE (v : Nat) : List Nat :=
  [v % 256, (v >>> 8) % 256, (v >>> 16) % 256, (v >>> 24) % 256]

/-- The function `encodePalettedStorage` of the chunk package: one header byte
`byte(bitsPerIndex<<1) | e.network()`, then each index word as 4
little-endian bytes, then the palette record written by
`e.encodePalette`. -/
def encodePalettedStorage (storage : PalettedStorage) (e : Encoding)
    (pe : paletteEncoding) : List Nat :=
  (((storage.bitsPerIndex <<< 1) % 256) ||| e.network)
    :: (flatMapL word32LE storage.indices ++ e.encodePalette storage.palette pe)

/-- Modelled from the spec: the `SubChunk` struct is not under `src/`; per
the spec and its use in `EncodeSubChunk`, it carries the ordered list of
paletted storages. -/
structure SubChunk where
  storages : List PalettedStorage
deriving DecidableEq

/-- Go's arithmetic right shift by 4 of a signed integer (`r[0] >> 4`):
floor division by 16. -/
def shr4 (x : Int) : Int := Int.fdiv x 16

/-- The function `EncodeSubChunk` of the chunk package: the three header bytes
`SubChunkVersion`, `byte(len(storages))` and `uint8(ind + (r[0] >> 4))`,
followed by each storage's paletted-storage encoding with the block
palette kind.  `r` models the `cube.Range` pair of signed ints. -/
def EncodeSubChunk (s : SubChunk) (e : Encoding) (r : Int × Int) (ind : Int) : List Nat :=
  [SubChunkVersion, s.storages.length % 256, ((ind + shr4 r.1) % 256).toNat]
    ++ flatMapL (fun st => encodePalettedStorage st e .BlockPaletteEncoding) s.storages

/-- Modelled from the spec: the `Chunk` struct is not under `src/`; per its
use in `Encode` and `EncodeBiomes` it carries the ordered sub chunks
(`c.sub`), the vertical range (`c.r`) and the biome storages (`c.biomes`);
per the spec's data model a chunk also carries an opaque block-entity blob. -/
structure Chunk where
  sub : List SubChunk
  r : Int × Int
  biomes : List PalettedStorage
  blockEntityBlob : List Nat

/-- The struct `SerialisedData` of the chunk package: serialised sub chunks, biome
bytes, and the encoded block-entity NBT. -/
structure SerialisedData where
  SubChunks : List (List Nat)
  Biomes : List Nat
  BlockNBT : List Nat
deriving DecidableEq

/-- The function `EncodeBiomes` of the chunk package: the concatenation of each biome
storage's paletted-storage encoding with the biome palette kind. -/
def EncodeBiomes (c : Chunk) (e : Encoding) : List Nat :=
  flatMapL (fun b => encodePalettedStorage b e .BiomePaletteEncoding) c.biomes

/-- The function `Encode` of the chunk package: one serialised byte string per sub
chunk (each produced by `EncodeSubChunk` at that sub chunk's position
index), the encoded biomes, and — since `Encode` never assigns to
`BlockNBT` — the zero value (empty) for the block-entity bytes. -/
def Encode (c : Chunk) (e : Encoding) : SerialisedData :=
  { SubChunks := c.sub.enum.map (fun p => EncodeSubChunk p.2 e c.r (p.1 : Int))
    Biomes := EncodeBiomes c e
    BlockNBT := [] }

/-- A network `Encoding` with a trivial palette sub-encoder; a concrete
test input. -/
def encNet : Encoding := ⟨.network, fun _ _ => []⟩

/-- A disk `Encoding` with a trivial palette sub-encoder; a concrete test
input. -/
def encDisk : Encoding := ⟨.disk, fun _ _ => []⟩

/-! ## General lemmas about the embedding -/

theorem flatMapL_congr {α β : Type} {f g : α → List β} (h : ∀ a, f a = g a) :
    ∀ l : List α, flatMapL f l = flatMapL g l
  | [] => rfl
  | a :: l => by rw [flatMapL, flatMapL, h a, flatMapL_congr h l]

theorem flatMapL_length_word32LE (l : List Nat) :
    (flatMapL word32LE l).length = 4 * l.length := by
  induction l with
  | nil => rfl
  | cons a l ih =>
    simp only [flatMapL, List.length_append, List.length_cons, ih, word32LE,
      List.length_nil]
    omega

theorem encodePalettedStorage_length (storage : PalettedStorage) (e : Encoding)
    (pe : paletteEncoding) :
    (encodePalettedStorage storage e pe).length
      = 1 + 4 * storage.indices.length + (e.encodePalette storage.palette pe).length := by
  simp [encodePalettedStorage, flatMapL_length_word32LE]
  omega

/-! ## Claims C4 and C10: the paletted-storage record layout -/

/-- C4: for every paletted storage and every encoding / palette-kind
selector, the encoded record is one header byte
`byte(bitsPerIndex << 1) | networkFlag` (flag 1 for network, 0 for disk),
then each packed word as exactly 4 little-endian bytes, then the palette
record. -/
theorem C4_paletted_storage_layout (storage : PalettedStorage) (e : Encoding)
    (pe : paletteEncoding) :
    encodePalettedStorage storage e pe
      = (((storage.bitsPerIndex <<< 1) % 256) ||| e.network)
        :: (flatMapL
              (fun v => [v % 256, (v / 2 ^ 8) % 256, (v / 2 ^ 16) % 256, (v / 2 ^ 24) % 256])
              storage.indices
            ++ e.encodePalette storage.palette pe) := by
  have h : ∀ v : Nat,
      word32LE v = [v % 256, (v / 2 ^ 8) % 256, (v / 2 ^ 16) % 256, (v / 2 ^ 24) % 256] := by
    intro v
    simp [word32LE, Nat.shiftRight_eq_div_pow]
  rw [encodePalettedStorage, flatMapL_congr h]

/-- C10: the portion of the encoded paletted-storage record that precedes
the palette record is exactly `1 + 4 * len(indices)` bytes — one word per
entry of the index array, regardless of the bit width or the palette
kind — and the remainder is exactly the palette record. -/
theorem C10_prepalette_length (storage : PalettedStorage) (e : Encoding)
    (pe : paletteEncoding) :
    ((encodePalettedStorage storage e pe).take (1 + 4 * storage.indices.length)).length
        = 1 + 4 * storage.indices.length ∧
    (encodePalettedStorage storage e pe).drop (1 + 4 * storage.indices.length)
        = e.encodePalette storage.palette pe := by
  constructor
  · rw [List.length_take, encodePalettedStorage_length]
    omega
  · have h1 : 1 + 4 * storage.indices.length = 4 * storage.indices.length + 1 := by omega
    rw [encodePalettedStorage, h1, List.drop_succ_cons,
      ← flatMapL_length_word32LE storage.indices, List.drop_left]

/-! ## Claims C5 and C6: the sub-chunk record -/

/-- C5: for every non-empty sub chunk, `EncodeSubChunk` writes the 3-byte
header — the format-version constant, the storage count byte, and the
vertical-index byte `uint8(ind + (r[0] >> 4))` (arithmetic shift, i.e.
floor division by 16) — followed by each storage's paletted-storage
encoding in order, with the block palette kind. -/
theorem C5_subchunk_layout (s : SubChunk) (e : Encoding) (r : Int × Int) (ind : Int)
    (_hne : s.storages ≠ []) :
    EncodeSubChunk s e r ind
      = SubChunkVersion :: (s.storages.length % 256)
        :: (((ind + Int.fdiv r.1 16) % 256).toNat)
        :: flatMapL (fun st => encodePalettedStorage st e paletteEncoding.BlockPaletteEncoding)
            s.storages := by
  simp [EncodeSubChunk, shr4]

/-- Witness for C5 at a concrete sub chunk with one storage, the disk
encoding and a negative range bottom. -/
theorem C5_witness :
    EncodeSubChunk ⟨[⟨1, [5], [0, 1]⟩]⟩ encDisk (-64, 319) 0
      = SubChunkVersion :: (([⟨1, [5], [0, 1]⟩] : List PalettedStorage).length % 256)
        :: ((((0 : Int) + Int.fdiv (-64) 16) % 256).toNat)
        :: flatMapL (fun st => encodePalettedStorage st encDisk paletteEncoding.BlockPaletteEncoding)
            [⟨1, [5], [0, 1]⟩] :=
  C5_subchunk_layout ⟨[⟨1, [5], [0, 1]⟩]⟩ encDisk (-64, 319) 0 (by decide)

/-- C6 (refuting the spec): a sub chunk with zero storages does NOT encode
to a zero-length byte sequence; `EncodeSubChunk` unconditionally writes the
3-byte header, so the result is `[SubChunkVersion, 0, verticalIndexByte]`,
of length 3. -/
theorem C6_empty_subchunk_three_bytes (e : Encoding) (r : Int × Int) (ind : Int) :
    EncodeSubChunk ⟨[]⟩ e r ind
        = [SubChunkVersion, 0, ((ind + Int.fdiv r.1 16) % 256).toNat] ∧
    (EncodeSubChunk ⟨[]⟩ e r ind).length = 3 := by
  constructor
  · simp [EncodeSubChunk, shr4, flatMapL]
  · simp [EncodeSubChunk, flatMapL]

/-! ## Claim C7: the chunk encoder -/

/-- C7 counterexample: `Encode` does not pass the chunk's block-entity
blob through; the `BlockNBT` field of the result is never assigned and
stays empty. -/
theorem C7_blocknbt_cex :
    (Encode ⟨[], (0, 0), [], [42]⟩ encDisk).BlockNBT
      ≠ (Chunk.blockEntityBlob ⟨[], (0, 0), [], [42]⟩) := by
  decide

/-- C7 as amended: `Encode` produces one byte string per sub chunk — the
i-th being `EncodeSubChunk` of the i-th sub chunk at position index i —
its `Biomes` is the concatenation of the biome-layer paletted-storage
encodings with the biome palette kind, and its `BlockNBT` is left empty
(the chunk's block-entity blob is not copied). -/
theorem C7_encode_fields (c : Chunk) (e : Encoding) :
    (Encode c e).SubChunks.length = c.sub.length ∧
    (∀ i : Nat, (Encode c e).SubChunks.get? i
        = (c.sub.get? i).map (fun sc => EncodeSubChunk sc e c.r (i : Int))) ∧
    (Encode c e).Biomes
        = flatMapL (fun b => encodePalettedStorage b e paletteEncoding.BiomePaletteEncoding)
            c.biomes ∧
    (Encode c e).BlockNBT = [] := by
  refine ⟨by simp [Encode], ?_, rfl, rfl⟩
  intro i
  simp only [Encode, List.getElem?_map, List.getElem?_enum, List.get?_eq_getElem?]
  cases c.sub[i]? <;> rfl

/-! ## Lemmas about property hashing -/

theorem lookupVal_cons (x : GoString × Value) (rest : List (GoString × Value))
    (k : GoString) :
    lookupVal (x :: rest) k = if x.1 = k then some x.2 else lookupVal rest k := by
  rcases x with ⟨a, b⟩
  rfl

theorem lookupVal_eq_of_perm {p q : List (GoString × Value)} (hpq : p.Perm q)
    (nd : (p.map Prod.fst).Nodup) (k : GoString) : lookupVal p k = lookupVal q k := by
  induction hpq with
  | nil => rfl
  | cons x h ih =>
    rw [lookupVal_cons, lookupVal_cons]
    simp only [List.map_cons, List.nodup_cons] at nd
    rw [ih nd.2]
  | swap x y l =>
    simp only [List.map_cons, List.nodup_cons, List.mem_cons] at nd
    have hyx : y.1 ≠ x.1 := fun h => nd.1 (Or.inl h)
    rw [lookupVal_cons, lookupVal_cons, lookupVal_cons, lookupVal_cons]
    by_cases h1 : y.1 = k <;> by_cases h2 : x.1 = k <;> simp [h1, h2]
    exact absurd (h1.trans h2.symm) hyx
  | trans h1 h2 ih1 ih2 =>
    have nd2 := ((h1.map Prod.fst).nodup nd)
    rw [ih1 nd, ih2 nd2]

theorem sortKeys_eq_of_perm {p q : List (GoString × Value)} (hpq : p.Perm q) :
    sortKeys p = sortKeys q :=
  List.eq_of_perm_of_sorted
    (((List.perm_insertionSort _ _).trans (hpq.map Prod.fst)).trans
      (List.perm_insertionSort _ _).symm)
    (List.sorted_insertionSort _ _) (List.sorted_insertionSort _ _)

theorem hashLoop_congr {p q : List (GoString × Value)}
    (h : ∀ k, lookupVal p k = lookupVal q k) :
    ∀ ks : List GoString, hashLoop p ks = hashLoop q ks
  | [] => rfl
  | k :: ks => by
    simp only [hashLoop, h k, hashLoop_congr h ks]

theorem lookupVal_of_mem {props : List (GoString × Value)} {k : GoString} {v : Value}
    (nd : (props.map Prod.fst).Nodup) (hm : (k, v) ∈ props) :
    lookupVal props k = some v := by
  induction props with
  | nil => cases hm
  | cons x rest ih =>
    simp only [List.map_cons, List.nodup_cons] at nd
    rw [lookupVal_cons]
    rcases List.mem_cons.mp hm with heq | htail
    · rw [← heq]
      simp
    · by_cases hk : x.1 = k
      · exact absurd (hk ▸ List.mem_map_of_mem Prod.fst htail) nd.1
      · rw [if_neg hk]
        exact ih nd.2 htail

theorem hashLoop_error_of_other {props : List (GoString × Value)} {k : GoString}
    (hv : lookupVal props k = some Value.other) :
    ∀ ks : List GoString, k ∈ ks → hashLoop props ks = .error .invalidPropertyType := by
  intro ks
  induction ks with
  | nil => intro h; cases h
  | cons a ks ih =>
    intro hmem
    by_cases hk : a = k
    · subst hk
      simp only [hashLoop, hv, valueBytes]
    · have hks : k ∈ ks := (List.mem_cons.mp hmem).resolve_left (fun h => hk h.symm)
      simp only [hashLoop]
      cases hl : lookupVal props a with
      | none => rfl
      | some v =>
        cases hb : valueBytes v with
        | none => simp [hb]
        | some bs => simp [hb, ih hks]

/-! ## Claim C1: digest equality versus bag equality -/

/-- C1 counterexample: two property bags with the same key set and a
differing value at key "a" (a bool `true` versus a uint8 `1`) receive the
same digest, because the digest carries no type tags; so digest equality
does not imply bag equality. -/
theorem C1_collision_cex :
    hashProperties [(gs ("a"), Value.bool true)] = hashProperties [(gs ("a"), Value.uint8 1)] ∧
    lookupVal [(gs ("a"), Value.bool true)] (gs ("a"))
      ≠ lookupVal [(gs ("a"), Value.uint8 1)] (gs ("a")) := by
  constructor
  · decide
  · decide

/-- C1 as amended: the digest is sound and order-independent — two bags
holding the same keys with the same values, in any iteration/insertion
order, receive equal digests — but the converse fails (see the
counterexample): distinct bags can share a digest. -/
theorem C1_order_independent (p q : List (GoString × Value)) (hpq : p.Perm q)
    (nd : (p.map Prod.fst).Nodup) :
    hashProperties p = hashProperties q := by
  unfold hashProperties
  rw [sortKeys_eq_of_perm hpq]
  exact hashLoop_congr (lookupVal_eq_of_perm hpq nd) (sortKeys q)

/-- Witness for C1: two concrete two-key bags differing only in insertion
order hash alike. -/
theorem C1_witness :
    hashProperties [(gs ("b"), Value.bool true), (gs ("a"), Value.uint8 7)]
      = hashProperties [(gs ("a"), Value.uint8 7), (gs ("b"), Value.bool true)] :=
  C1_order_independent _ _ (by decide) (by decide)

/-! ## Claim C8: the int32 encoding -/

/-- C8: for every int32 value, including negative ones, `hashProperties`
appends exactly the 4-byte little-endian two's-complement representation
of the value — the base-256 digits, least significant first, of `v` for
non-negative `v` and of `v + 2^32` for negative `v`. -/
theorem C8_int32_twos_complement (k : GoString) (v : Int)
    (h1 : -2147483648 ≤ v) (h2 : v < 2147483648) :
    hashProperties [(k, Value.int32 v)]
      = .ok [(if v < 0 then v + 4294967296 else v).toNat % 256,
             ((if v < 0 then v + 4294967296 else v).toNat / 256) % 256,
             ((if v < 0 then v + 4294967296 else v).toNat / 65536) % 256,
             ((if v < 0 then v + 4294967296 else v).toNat / 16777216) % 256] := by
  have hu : v % 4294967296 = if v < 0 then v + 4294967296 else v := by
    split <;> omega
  simp only [hashProperties, sortKeys, List.map_cons, List.map_nil, List.insertionSort,
    List.orderedInsert, hashLoop, lookupVal, if_pos, valueBytes, int32LE, hu,
    Nat.shiftRight_eq_div_pow, List.append_nil]

/-- Witness for C8 at the negative value -1: the digest is the four bytes
0xFF 0xFF 0xFF 0xFF. -/
theorem C8_witness :
    hashProperties [(gs ("age"), Value.int32 (-1))] = .ok [255, 255, 255, 255] := by
  have h := C8_int32_twos_complement (gs ("age")) (-1) (by norm_num) (by norm_num)
  norm_num at h
  exact h

/-! ## Claim C9: invalid property types fail loudly -/

/-- C9: hashing a property bag that contains a value of any type other
than bool, uint8, int32 or string always fails with the
`invalidPropertyType` error (the Go panic) and never silently coerces the
value into a digest. -/
theorem C9_invalid_type_fails (props : List (GoString × Value)) (k : GoString)
    (nd : (props.map Prod.fst).Nodup) (hm : (k, Value.other) ∈ props) :
    hashProperties props = .error .invalidPropertyType := by
  have hv := lookupVal_of_mem nd hm
  have hk : k ∈ sortKeys props :=
    (List.perm_insertionSort _ _).mem_iff.mpr (List.mem_map_of_mem Prod.fst hm)
  exact hashLoop_error_of_other hv (sortKeys props) hk

/-- Witness for C9: a bag holding one value of an unsupported dynamic type
fails with `invalidPropertyType`. -/
theorem C9_witness :
    hashProperties [(gs ("x"), Value.other)] = .error .invalidPropertyType :=
  C9_invalid_type_fails _ (gs ("x")) (by decide) (by decide)

/-! ## Lemmas about the registry -/

theorem bindOk {ε α β : Type} (a : α) (f : α → Except ε β) :
    (do let x ← Except.ok a; f x : Except ε β) = f a := rfl

theorem bindError {ε α β : Type} (e : ε) (f : α → Except ε β) :
    (do let x ← (Except.error e : Except ε α); f x : Except ε β) = .error e := rfl

theorem exists_ok_of_isOk {e : Except DracoError GoString} (h : e.isOk = true) :
    ∃ d, e = .ok d := by
  cases e with
  | ok d => exact ⟨d, rfl⟩
  | error err => simp [Except.isOk, Except.toBool] at h

theorem theHash_eq {s : blockState} {d : GoString}
    (hd : hashProperties s.Properties = .ok d) : theHash s = ⟨s.Name, d⟩ := by
  simp [theHash, hd]

theorem registerBlockState_eq_ok {reg : Registry} {s : blockState} {d : GoString}
    (hd : hashProperties s.Properties = .ok d)
    (hfresh : lookupHash reg.stateRuntimeIDs ⟨s.Name, d⟩ = none) :
    registerBlockState reg s = .ok
      { blocks := reg.blocks ++ [s]
        stateRuntimeIDs := (⟨s.Name, d⟩, reg.blocks.length) :: reg.stateRuntimeIDs
        airRID := if s.Name = gs ("minecraft:air") then reg.blocks.length else reg.airRID
        nbtBlocks := reg.nbtBlocks ++ [false]
        randomTickBlocks := reg.randomTickBlocks ++ [false] } := by
  simp [registerBlockState, hd, bindOk, hfresh]

theorem registerBlockState_eq_error {reg : Registry} {s : blockState} {d : GoString}
    (hd : hashProperties s.Properties = .ok d)
    (hdup : (lookupHash reg.stateRuntimeIDs ⟨s.Name, d⟩).isSome = true) :
    registerBlockState reg s = .error .duplicateState := by
  simp [registerBlockState, hd, bindOk, hdup]

theorem registerAll_spec (ss : List blockState) : ∀ reg : Registry,
    (∀ s ∈ ss, (hashProperties s.Properties).isOk = true) →
    (∀ s ∈ ss, lookupHash reg.stateRuntimeIDs (theHash s) = none) →
    (ss.map theHash).Nodup →
    ∃ reg', registerAll reg ss = .ok reg' ∧
      reg'.blocks = reg.blocks ++ ss ∧
      (∀ h n, lookupHash reg.stateRuntimeIDs h = some n →
        lookupHash reg'.stateRuntimeIDs h = some n) ∧
      (∀ i, ∀ hi : i < ss.length,
        lookupHash reg'.stateRuntimeIDs (theHash (ss.get ⟨i, hi⟩))
          = some (reg.blocks.length + i)) := by
  induction ss with
  | nil =>
    intro reg _ _ _
    exact ⟨reg, rfl, by simp, fun h n hn => hn, fun i hi => absurd hi (by simp)⟩
  | cons s rest ih =>
    intro reg hwt hfresh hnd
    obtain ⟨d, hd⟩ := exists_ok_of_isOk (hwt s (List.mem_cons_self s rest))
    have hth : theHash s = ⟨s.Name, d⟩ := theHash_eq hd
    have hfs : lookupHash reg.stateRuntimeIDs ⟨s.Name, d⟩ = none := by
      rw [← hth]
      exact hfresh s (List.mem_cons_self s rest)
    have h1 := registerBlockState_eq_ok hd hfs
    set reg1 : Registry :=
      { blocks := reg.blocks ++ [s]
        stateRuntimeIDs := (⟨s.Name, d⟩, reg.blocks.length) :: reg.stateRuntimeIDs
        airRID := if s.Name = gs ("minecraft:air") then reg.blocks.length else reg.airRID
        nbtBlocks := reg.nbtBlocks ++ [false]
        randomTickBlocks := reg.randomTickBlocks ++ [false] } with hreg1
    simp only [List.map_cons, List.nodup_cons] at hnd
    have hlook1 : ∀ h' : stateHash, lookupHash reg1.stateRuntimeIDs h'
        = if (⟨s.Name, d⟩ : stateHash) = h' then some reg.blocks.length
          else lookupHash reg.stateRuntimeIDs h' := fun h' => rfl
    have hfresh1 : ∀ t ∈ rest, lookupHash reg1.stateRuntimeIDs (theHash t) = none := by
      intro t ht
      rw [hlook1, if_neg]
      · exact hfresh t (List.mem_cons_of_mem s ht)
      · intro hcontra
        apply hnd.1
        rw [hth, hcontra]
        exact List.mem_map_of_mem theHash ht
    obtain ⟨reg', hall, hblocks, hpres, hidx⟩ :=
      ih reg1 (fun t ht => hwt t (List.mem_cons_of_mem s ht)) hfresh1 hnd.2
    refine ⟨reg', ?_, ?_, ?_, ?_⟩
    · have hstep : registerAll reg (s :: rest) = registerAll reg1 rest := by
        simp [registerAll, h1, bindOk]
      rw [hstep, hall]
    · rw [hblocks]
      simp [hreg1]
    · intro h' n hn
      apply hpres
      rw [hlook1, if_neg]
      · exact hn
      · intro hcontra
        rw [← hcontra, hfs] at hn
        cases hn
    · intro i hi
      cases i with
      | zero =>
        have hl1 : lookupHash reg1.stateRuntimeIDs (theHash s) = some reg.blocks.length := by
          rw [hlook1, hth, if_pos rfl]
        simpa using hpres (theHash s) reg.blocks.length hl1
      | succ j =>
        have hj : j < rest.length := by simpa using hi
        have h2 := hidx j hj
        have hlen : reg1.blocks.length = reg.blocks.length + 1 := by simp [hreg1]
        rw [hlen] at h2
        have harith : reg.blocks.length + 1 + j = reg.blocks.length + (j + 1) := by omega
        rw [harith] at h2
        exact h2

/-! ## Claim C2: sequential runtime IDs and lookup after registration -/

/-- C2: registering a sequence of block-state records with pairwise
distinct state hashes (the spec's notion of record identity) succeeds and
assigns runtime IDs sequentially from 0 in registration order — the
registered table is exactly the input sequence — and a subsequent
`StateToRuntimeID` on the i-th record's name and properties returns
exactly `(i, true)`. -/
theorem C2_sequential_ids_and_lookup (ss : List blockState)
    (hwt : ∀ s ∈ ss, (hashProperties s.Properties).isOk = true)
    (hnd : (ss.map theHash).Nodup) :
    ∃ reg, registerAll Registry.empty ss = .ok reg ∧
      reg.blocks = ss ∧
      ∀ i, ∀ hi : i < ss.length,
        StateToRuntimeID reg (ss.get ⟨i, hi⟩).Name (ss.get ⟨i, hi⟩).Properties
          = .ok (i, true) := by
  obtain ⟨reg, hall, hblocks, _, hidx⟩ :=
    registerAll_spec ss Registry.empty hwt (fun s _ => rfl) hnd
  refine ⟨reg, hall, by simpa using hblocks, ?_⟩
  intro i hi
  obtain ⟨d, hd⟩ := exists_ok_of_isOk (hwt _ (ss.get_mem i hi))
  have h2 := hidx i hi
  rw [theHash_eq hd] at h2
  simp only [List.get_eq_getElem] at hd h2
  simp [StateToRuntimeID, hd, h2, bindOk, Registry.empty]

/-- The air block-state record, a concrete test input. -/
def airS : blockState := ⟨gs ("minecraft:air"), [], 1⟩

/-- A stone block-state record with one string property, a concrete test
input. -/
def stoneS : blockState :=
  ⟨gs ("minecraft:stone"), [(gs ("stone_type"), Value.string (gs ("granite")))], 1⟩

/-- Witness for C2 with two concrete records: air gets runtime ID 0 and
stone gets 1, and lookups return them. -/
theorem C2_witness :
    ∃ reg, registerAll Registry.empty [airS, stoneS] = .ok reg ∧
      reg.blocks = [airS, stoneS] ∧
      ∀ i, ∀ hi : i < ([airS, stoneS] : List blockState).length,
        StateToRuntimeID reg (([airS, stoneS] : List blockState).get ⟨i, hi⟩).Name
            (([airS, stoneS] : List blockState).get ⟨i, hi⟩).Properties
          = .ok (i, true) :=
  C2_sequential_ids_and_lookup [airS, stoneS] (by decide) (by decide)

/-! ## Claim C3: duplicate registration -/

/-- C3: after a record is registered, registering any record with the same
state hash (same name, byte-identical property digest) fails with the
duplicate-state panic (modelled as the `duplicateState` error), and the
registry produced by the first registration keeps its size — one more than
before — and its mapping of the first record's hash to the assigned
runtime ID; nothing is overwritten. -/
theorem C3_duplicate_state_rejected (reg reg1 : Registry) (s s' : blockState)
    (hwt' : (hashProperties s'.Properties).isOk = true)
    (hsame : theHash s' = theHash s)
    (h1 : registerBlockState reg s = .ok reg1) :
    registerBlockState reg1 s' = .error .duplicateState ∧
    reg1.blocks.length = reg.blocks.length + 1 ∧
    lookupHash reg1.stateRuntimeIDs (theHash s) = some reg.blocks.length := by
  cases hs : hashProperties s.Properties with
  | error err => simp [registerBlockState, hs, bindError] at h1
  | ok d =>
    cases hcheck : lookupHash reg.stateRuntimeIDs ⟨s.Name, d⟩ with
    | some n =>
      rw [registerBlockState_eq_error hs (by rw [hcheck]; rfl)] at h1
      simp at h1
    | none =>
      rw [registerBlockState_eq_ok hs hcheck] at h1
      injection h1 with h1
      subst h1
      obtain ⟨d', hd'⟩ := exists_ok_of_isOk hwt'
      have hth' : (⟨s'.Name, d'⟩ : stateHash) = theHash s := by
        rw [← theHash_eq hd', hsame]
      refine ⟨?_, by simp, ?_⟩
      · apply registerBlockState_eq_error hd'
        rw [hth', theHash_eq hs]
        simp [lookupHash]
      · rw [theHash_eq hs]
        simp [lookupHash]

/-- The registry state after registering exactly the air record, a
concrete test input. -/
def regAir : Registry :=
  ⟨[airS], [(⟨gs ("minecraft:air"), []⟩, 0)], 0, [false], [false]⟩

/-- Witness for C3: re-registering the air record after it was registered
into the empty registry fails with `duplicateState`, with size and mapping
intact. -/
theorem C3_witness :
    registerBlockState regAir airS = .error .duplicateState ∧
    regAir.blocks.length = Registry.empty.blocks.length + 1 ∧
    lookupHash regAir.stateRuntimeIDs (theHash airS)
      = some Registry.empty.blocks.length :=
  C3_duplicate_state_rejected Registry.empty regAir airS airS (by decide) rfl (by decide)

end Draco
